import Mathlib

/-!
Verification of the spatial buffer-and-containment analysis pipeline of
`APP_PUBLIC_DATA.py` (Bogotá territorial diagnostic tool).

The shallow embedding below models geometries over a discrete planar grid:
a point is a pair of integer coordinates, the circular analysis buffer is
the disk of a given radius around a centre in that grid, and a block
(manzana) polygon is represented by the finite list of grid points its
region covers.  Shapely's boundary-exclusive `contains` for a point is
strict-inequality membership in the disk, while polygon `intersects`
(closed-set overlap) is non-strict membership of at least one covered
point.  Dataframes become lists of records, and the Python loops of the
source are translated into folds over those lists, preserving the exact
branch structure (containment test first, then the coordinate
deduplication test, then the name selection).  Python's float arithmetic
for the density metric is modelled over `ℚ`; the concrete value checked
(3.536…) is far from every rounding boundary, so the rational model and
the float computation display identically at two decimals.
-/

namespace Concurso

/-- A planar point of the discrete geometry model (grid coordinates). -/
structure Pt where
  x : Int
  y : Int
deriving DecidableEq, Repr

/-- The exact coordinate pair of a point, `(pt.x, pt.y)` in the source. -/
def ptCoord (p : Pt) : Int × Int := (p.x, p.y)

/-- The circular analysis buffer `area_wgs`: a disk of radius `r` around
`(cx, cy)` in the planar grid model. -/
structure Buffer where
  cx : Int
  cy : Int
  r : Int
deriving DecidableEq, Repr

/-- Squared planar distance from the buffer centre. -/
def distSq (b : Buffer) (p : Pt) : Int :=
  (p.x - b.cx) ^ 2 + (p.y - b.cy) ^ 2

/-- Shapely `area_wgs.contains(pt)`: boundary-exclusive point-in-disk test
(strict inequality, points on the circle are excluded). -/
def bufContainsPt (b : Buffer) (p : Pt) : Bool :=
  distSq b p < b.r ^ 2

/-- Closed membership in the buffer disk (boundary included); a polygon
`intersects` the buffer exactly when one of its covered grid points
satisfies this. -/
def bufMeetsPt (b : Buffer) (p : Pt) : Bool :=
  distSq b p ≤ b.r ^ 2

/-- A feature-row geometry: shapely `Point`, `MultiPoint` (the
`hasattr(geom, "geoms")` case), or any other geometry type, which both
classifier loops skip silently. -/
inductive Geom where
  | pt (p : Pt)
  | multi (ps : List Pt)
  | other
deriving DecidableEq, Repr

/-- One row of a feature layer (`transporte` or `colegios`): a geometry
plus the optional semicolon-delimited `nombres` field (`None` models a row
with no name field, where `row.get` returns the default). -/
structure FeatureRecord where
  geometry : Geom
  nombres : Option String
deriving DecidableEq, Repr

/-- One row of the block layer `manzanas`: the grid points covered by the
block polygon, its stratum, its land-use area key `id_area` and its
locality code `num_localidad`. -/
structure Manzana where
  geometry : List Pt
  estrato : Nat
  idArea : Nat
  numLocalidad : Nat
deriving DecidableEq, Repr

/-- A grid point lies in a block's region (`manzana.geometry.contains(pt)`
in the discrete model). -/
def manzanaContainsPt (m : Manzana) (p : Pt) : Bool :=
  decide (p ∈ m.geometry)

/-! ## Block subset inside the analysis buffer (source line 353) -/

/-- Shapely polygon-vs-buffer `intersects` in the grid model: at least one
grid point covered by the geometry lies in the closed buffer disk. -/
def geomIntersectsBuffer (g : List Pt) (b : Buffer) : Bool :=
  g.any (bufMeetsPt b)

/-- `manzanas_zona = manzanas[manzanas.geometry.intersects(area_wgs)]`:
the block rows kept for the in-buffer block count and both distribution
breakdowns. -/
def manzanas_zona (manzanas : List Manzana) (b : Buffer) : List Manzana :=
  manzanas.filter (fun m => geomIntersectsBuffer m.geometry b)

/-- Spec-side containment ("the geometry lies within the buffer polygon's
interior"): every grid point covered by the geometry is strictly inside
the buffer disk. -/
def geomWithinBufferInterior (g : List Pt) (b : Buffer) : Bool :=
  g.all (bufContainsPt b)

/-- A block straddling the buffer boundary: one covered point at the
centre, one far outside. -/
def manzanaStraddle : Manzana :=
  { geometry := [⟨0, 0⟩, ⟨5, 0⟩], estrato := 3, idArea := 1, numLocalidad := 1 }

/-- Unit-radius buffer at the origin used by the C2 counterexample. -/
def bufferUnit : Buffer := ⟨0, 0, 1⟩

/-! ## Feature classifier with coordinate deduplication and name pairing
(source lines 393-421 for stations, 502-531 for schools) -/

/-- Python `s.split(";")` over the character list of a string: splits at
every semicolon, keeps empty pieces, never returns an empty list. -/
def splitSemi (l : List Char) : List (List Char) :=
  match l with
  | [] => [[]]
  | c :: cs =>
    match splitSemi cs with
    | [] => [[]]
    | p :: ps => if c = ';' then [] :: p :: ps else (c :: p) :: ps

/-- Python `s.strip()`: drop leading and trailing whitespace. -/
def stripChars (l : List Char) : List Char :=
  ((l.dropWhile Char.isWhitespace).reverse.dropWhile Char.isWhitespace).reverse

/-- `lista_nombres = [n.strip() for n in str(nombres_row).split(";")]`. -/
def listaNombres (s : String) : List String :=
  (splitSemi s.data).map (fun cs => String.mk (stripChars cs))

/-- `lista_nombres[idx] if idx < len(lista_nombres) else lista_nombres[0]`
(the list produced by `listaNombres` is never empty, so the `headD`
default is unreachable). -/
def nombreEnIdx (ln : List String) (idx : Nat) : String :=
  if h : idx < ln.length then ln.get ⟨idx, h⟩ else ln.headD ""

/-- The three parallel lists built by a classifier loop:
`estaciones_area` / `estaciones_coords` / `nombres_estaciones` (and the
identically-shaped `colegios_*` triple). -/
structure ClassState where
  area : List Pt
  coords : List (Int × Int)
  nombres : List String
deriving DecidableEq, Repr

/-- The three lists start empty. -/
def emptyClassState : ClassState := ⟨[], [], []⟩

/-- The loop body for one candidate point: test buffer containment first,
then the exact-coordinate deduplication against the coords list, then
append point, coordinate and the selected name. -/
def addPt (b : Buffer) (st : ClassState) (p : Pt) (nombre : String) : ClassState :=
  if bufContainsPt b p then
    if ptCoord p ∈ st.coords then st
    else ⟨st.area ++ [p], st.coords ++ [ptCoord p], st.nombres ++ [nombre]⟩
  else st

/-- `for idx, pt in enumerate(geom.geoms): ...` — each constituent point
of a multi-point geometry is matched with the name token at its index. -/
def procMulti (b : Buffer) (ln : List String) : Nat → List Pt → ClassState → ClassState
  | _, [], st => st
  | idx, p :: ps, st => procMulti b ln (idx + 1) ps (addPt b st p (nombreEnIdx ln idx))

/-- Processing of one feature row: compute `lista_nombres` from the row's
name field (or the layer's "sin nombre" default when the field is
missing), then dispatch on the geometry shape; a single point uses
`lista_nombres[0] if lista_nombres else <fallback>`, other geometry
types are skipped. -/
def procRecord (defMissing defSingle : String) (b : Buffer) (st : ClassState)
    (r : FeatureRecord) : ClassState :=
  let ln := listaNombres (r.nombres.getD defMissing)
  match r.geometry with
  | Geom.multi ps => procMulti b ln 0 ps st
  | Geom.pt p => addPt b st p (ln.headD defSingle)
  | Geom.other => st

/-- A whole classifier loop over a feature layer. -/
def classify (defMissing defSingle : String) (b : Buffer) (layer : List FeatureRecord) :
    ClassState :=
  layer.foldl (procRecord defMissing defSingle b) emptyClassState

/-- The station classifier (source lines 393-421). -/
def estaciones_area (b : Buffer) (transporte : List FeatureRecord) : ClassState :=
  classify "Estación sin nombre" "Estación" b transporte

/-- The school classifier (source lines 502-531). -/
def colegios_area (b : Buffer) (colegios : List FeatureRecord) : ClassState :=
  classify "Colegio sin nombre" "Colegio" b colegios

/-! ## Composite score and qualitative label (source lines 909-923) -/

/-- `score`: starts at 0 and adds 1 for each of the three conditions
`len(estaciones_buffer) >= 2`, `len(colegios_buffer) >= 2`,
`len(manzanas_buffer) >= 10`, exactly as in the source. -/
def score (estaciones colegios manzanas : Nat) : Nat :=
  let s0 := 0
  let s1 := if 2 ≤ estaciones then s0 + 1 else s0
  let s2 := if 2 ≤ colegios then s1 + 1 else s1
  if 10 ≤ manzanas then s2 + 1 else s2

/-- The qualitative banner chosen from the score (source lines 918-923):
`score == 3` is the well-served banner, `score == 2` the acceptable one,
anything else the deficient one. -/
def evaluacion (s : Nat) : String :=
  if s = 3 then "SECTOR BIEN DOTADO"
  else if s = 2 then "SECTOR ACEPTABLE"
  else "SECTOR CON DÉFICIT"

/-! ## Locality-wide feature totals (source lines 846-871) -/

/-- `manzanas_localidad = manzanas[manzanas["num_localidad"] == cod]`. -/
def manzanas_localidad (manzanas : List Manzana) (cod : Nat) : List Manzana :=
  manzanas.filter (fun m => m.numLocalidad == cod)

/-- The locality-total loop (source lines 850-858 for stations, 861-868
for schools — both loops are textually identical up to the layer): only
rows whose geometry has a `geoms` attribute (multi-points) are iterated;
a constituent point is collected when some block of the locality contains
it (the inner loop breaks at the first such block).  There is no
`isinstance(..., Point)` branch in these loops. -/
def estLocStep (manzanasLoc : List Manzana) (acc : List Pt) (r : FeatureRecord) :
    List Pt :=
  match r.geometry with
  | Geom.multi ps =>
      acc ++ ps.filter (fun p => manzanasLoc.any (fun m => manzanaContainsPt m p))
  | _ => acc

def estaciones_localidad (manzanasLoc : List Manzana) (layer : List FeatureRecord) :
    List Pt :=
  layer.foldl (estLocStep manzanasLoc) []

/-- `len(set([(pt.x, pt.y) for pt in pts]))`: the number of distinct
exact coordinate pairs in a point list. -/
def dedupCoordCount (pts : List Pt) : Nat :=
  ((pts.map ptCoord).dedup).length

/-- `total_estaciones_loc` (and the identical `total_colegios_loc`): the
deduplicated count backing the percent-of-locality denominator. -/
def total_estaciones_loc (manzanasLoc : List Manzana) (layer : List FeatureRecord) : Nat :=
  dedupCoordCount (estaciones_localidad manzanasLoc layer)

/-- Spec-side collection of every constituent point of every record,
"whether its geometry is a single point or a multi-point cluster". -/
def allConstituentPts (layer : List FeatureRecord) : List Pt :=
  layer.foldl
    (fun acc r =>
      match r.geometry with
      | Geom.pt p => acc ++ [p]
      | Geom.multi ps => acc ++ ps
      | Geom.other => acc)
    []

/-- The total as the claim states it: every constituent point (single or
multi) contained in at least one locality block, deduplicated by exact
coordinate. -/
def claimTotalLoc (manzanasLoc : List Manzana) (layer : List FeatureRecord) : Nat :=
  dedupCoordCount
    ((allConstituentPts layer).filter
      (fun p => manzanasLoc.any (fun m => manzanaContainsPt m p)))

/-- A one-block locality covering the origin, for the C3 counterexample. -/
def manzanaOrigin : Manzana :=
  { geometry := [⟨0, 0⟩], estrato := 3, idArea := 1, numLocalidad := 1 }

/-- A layer holding one single-`Point` record at the origin. -/
def singlePointLayer : List FeatureRecord :=
  [{ geometry := Geom.pt ⟨0, 0⟩, nombres := none }]

/-! ## Land-use enrichment (source lines 730-739) -/

/-- One row of the land-use reference `areas`: the join key `id_area` and
the category `uso_pot_simplificado`. -/
structure AreaRec where
  idArea : Nat
  usoPot : String
deriving DecidableEq, Repr

/-- One row of the enriched block table `manzanas_pot`. -/
structure ManzanaPot where
  manzana : Manzana
  usoPot : String
deriving DecidableEq, Repr

/-- The rows a pandas left merge produces for one left row: one output row
per matching right row, or a single row whose category is the `fillna`
sentinel when nothing matches. -/
def mergeRow (areas : List AreaRec) (m : Manzana) : List ManzanaPot :=
  match areas.filter (fun a => a.idArea == m.idArea) with
  | [] => [⟨m, "Sin clasificación"⟩]
  | ms => ms.map (fun a => ⟨m, a.usoPot⟩)

/-- `manzanas_zona.merge(areas[...], on="id_area", how="left")` followed by
`fillna("Sin clasificación")`. -/
def merge_left (blocks : List Manzana) (areas : List AreaRec) : List ManzanaPot :=
  blocks.flatMap (mergeRow areas)

/-- `manzanas_pot` (source lines 730-739): the merge runs when the areas
table is non-empty (the `"id_area" in manzanas_zona.columns` conjunct is a
schema fact, always true in this model); otherwise every block is copied
once with the sentinel category. -/
def manzanas_pot (blocks : List Manzana) (areas : List AreaRec) : List ManzanaPot :=
  if areas.isEmpty then blocks.map (fun m => ⟨m, "Sin clasificación"⟩)
  else merge_left blocks areas

/-- A single block with land-use key 7, for the C4 counterexample. -/
def blockKey7 : Manzana :=
  { geometry := [⟨0, 0⟩], estrato := 2, idArea := 7, numLocalidad := 1 }

/-- An areas table holding two rows with the same key 7. -/
def areasDupKey : List AreaRec :=
  [⟨7, "Residencial"⟩, ⟨7, "Comercial"⟩]

/-! ## Density metric (source lines 485-487 and 595-597) -/

/-- `densidad = count / (3.14159 * (radio / 1000) ** 2)`, over `ℚ`; note
the hard-coded literal `3.14159`, not `math.pi`. -/
def densidad (count : Nat) (radio : Nat) : ℚ :=
  (count : ℚ) / ((314159 / 100000 : ℚ) * ((radio : ℚ) / 1000) ^ 2)

/-- The integer shown by a two-decimal display, times 100 (the displayed
value here is far from a rounding tie, so half-up rounding agrees with
the float formatting of the source). -/
def roundTo2 (q : ℚ) : ℤ :=
  ⌊q * 100 + 1 / 2⌋

/-- The density metric as guarded in the source: it is only computed and
shown when the classified subset is non-empty (`if estaciones_area:`). -/
def metricDensidad (pts : List Pt) (radio : Nat) : Option ℚ :=
  if pts.isEmpty then none else some (densidad pts.length radio)

/-! ## Percent-of-locality figures (source lines 873-875) -/

/-- Python division, made total by reporting `none` on a zero divisor
(where Python would raise `ZeroDivisionError`). -/
def pyDiv (a b : ℚ) : Option ℚ :=
  if b = 0 then none else some (a / b)

/-- `(len(xs_buffer) / total * 100) if total > 0 else 0`: the guard is
evaluated first, so the chosen branch is the only one evaluated; the
count is an `Option` because the buffer count name may itself fail to
evaluate (it is an undefined name in the source, cf. the report model
below), yet the zero-total branch never touches it. -/
def porcentajeExpr (count : Option Nat) (total : Nat) : Option ℚ :=
  if 0 < total then count.bind (fun c => (pyDiv (c : ℚ) (total : ℚ)).map (fun q => q * 100))
  else some (0 : ℚ)

/-! ## Predominant stratum and land-use category (source lines 887-890) -/

/-- The largest multiplicity occurring in the list. -/
def maxCount (l : List Nat) : Nat :=
  (l.map (fun v => l.count v)).foldr max 0

/-- Minimum of a list of naturals, `none` on the empty list. -/
def listMin : List Nat → Option Nat
  | [] => none
  | x :: xs => some (xs.foldl min x)

/-- The elements attaining the maximal multiplicity (with repetitions). -/
def modeCandidates (l : List Nat) : List Nat :=
  l.filter (fun v => l.count v == maxCount l)

/-- `manzanas_buffer['estrato'].mode()[0] if not manzanas_buffer.empty
else 'N/A'`: pandas `mode()` lists the modal values in ascending order,
so `[0]` is the smallest value of maximal multiplicity; `none` models
the 'N/A' branch. -/
def predominantEstrato (l : List Nat) : Option Nat :=
  if l.isEmpty then none else listMin (modeCandidates l)

/-- First occurrences of the values of a list, in order of appearance. -/
def uniqueInOrder (l : List String) : List String :=
  l.foldl (fun acc x => if x ∈ acc then acc else acc ++ [x]) []

/-- Scan for a value of maximal multiplicity, keeping the earlier value on
ties. -/
def vcBest (l : List String) (b : String) (xs : List String) : String :=
  xs.foldl (fun best v => if l.count best < l.count v then v else best) b

/-- `dist_pot.index[0] if not dist_pot.empty else 'N/A'` where `dist_pot`
is `value_counts()` of the land-use column: the first index of
`value_counts` is a value of maximal multiplicity (ties resolved towards
earlier first appearance in this model); `none` models the 'N/A'
branch. -/
def vcFirst (l : List String) : Option String :=
  match uniqueInOrder l with
  | [] => none
  | u :: us => some (vcBest l u us)

/-! ## The report step and its undefined names (source lines 873-968) -/

/-- Every name bound anywhere in `APP_PUBLIC_DATA.py`: imported names, the
one function, every assignment target and every loop target, in source
order of first binding.  Neither `estaciones_buffer` nor
`colegios_buffer` nor `manzanas_buffer` is among them. -/
def assignedNames : List String :=
  ["st", "gpd", "requests", "folium", "st_folium", "Point", "MultiPoint",
   "px", "go", "pio", "BytesIO", "json", "pd", "time",
   "cargar_datasets", "datasets", "dataframes", "nombre", "url",
   "response", "geojson_data", "df",
   "COLOR_FRAME", "COLOR_FILL", "COLOR_HI_FILL", "COLOR_BORDER",
   "localidades", "bounds", "center", "mapa", "result", "clicked",
   "punto", "row",
   "radio_analisis", "col1", "col2",
   "cod_localidad", "localidad_geo", "cursor_css", "col3",
   "manzanas", "transporte", "colegios", "areas",
   "punto_gdf", "punto_proj", "area_proj", "area_wgs",
   "manzanas_zona", "estaciones_zona", "colegios_zona", "pt",
   "estaciones_area", "estaciones_coords", "nombres_estaciones",
   "geom", "nombres_row", "lista_nombres", "n", "idx", "coord_tuple",
   "fig_transporte", "lats", "lons", "densidad",
   "colegios_area", "colegios_coords", "nombres_colegios",
   "fig_educacion", "estratos_unicos", "color_estrato", "fig_estrato",
   "trazas_agregadas", "estrato", "manzanas_estrato", "manzana",
   "coords", "mostrar_leyenda", "c", "dist_estratos", "cantidad",
   "porcentaje", "fig_estratobarras", "e",
   "manzanas_pot", "usos_pot", "palette_pot", "color_pot_map", "i",
   "uso", "fig_pot", "trazas_agregadas_pot", "manzanas_uso",
   "dist_pot", "fig_pot_barras",
   "manzanas_localidad", "estaciones_localidad", "colegios_localidad",
   "total_estaciones_loc", "total_colegios_loc",
   "porcentaje_estaciones", "porcentaje_colegios", "score",
   "csv", "StringIO", "csv_buffer", "writer", "k",
   "keys_to_keep", "keys_to_delete", "key"]

/-- Every `st.session_state` key the program ever assigns (`step`, the
five dataset names stored in the step-1 loop, and the per-step user
choices).  `buffer_size` is not among them. -/
def sessionAssignedKeys : List String :=
  ["step", "localidades", "areas", "manzanas", "transporte", "colegios",
   "localidad_clic", "localidad_sel", "radio_analisis",
   "punto_lat", "punto_lon", "informe_data"]

/-- Name lookup in an environment: `none` is Python's `NameError` (or the
missing-attribute error for `st.session_state`). -/
def lookupVar (env : List (String × Nat)) (n : String) : Option Nat :=
  (env.find? (fun p => p.1 == n)).map (fun p => p.2)

/-- The flat record the report step stores and exports. -/
structure InformeData where
  manzanas : Nat
  estaciones : Nat
  colegios : Nat
  bufferSize : Nat
  score : Nat
deriving DecidableEq, Repr

/-- The report/scoring/export step (source lines 873-968) as a function of
the variable environment and the session-state environment: it must read
`estaciones_buffer`, `colegios_buffer` and `manzanas_buffer` from the
former and `buffer_size` from the latter before any summary, score or CSV
row is produced; a failed lookup aborts the whole step. -/
def informeStep (env senv : List (String × Nat)) : Option InformeData := do
  let est ← lookupVar env "estaciones_buffer"
  let col ← lookupVar env "colegios_buffer"
  let man ← lookupVar env "manzanas_buffer"
  let buf ← lookupVar senv "buffer_size"
  pure ⟨man, est, col, buf, score est col man⟩

/-- Classifier loop invariant: the coords list mirrors the collected
points' exact coordinates, contains no duplicate pair, every collected
point passes the boundary-exclusive buffer test, and the point and name
lists stay parallel. -/
def StInv (b : Buffer) (st : ClassState) : Prop :=
  st.coords = st.area.map ptCoord ∧
  st.coords.Nodup ∧
  (∀ p ∈ st.area, bufContainsPt b p = true) ∧
  st.area.length = st.nombres.length

/-!
# Theorems
-/

theorem addPt_inv {b : Buffer} {st : ClassState} (h : StInv b st) (p : Pt) (nm : String) :
    StInv b (addPt b st p nm) := by
  obtain ⟨hc, hnd, hin, hlen⟩ := h
  unfold addPt
  split
  · split
    · exact ⟨hc, hnd, hin, hlen⟩
    · next hcont hnotmem =>
      refine ⟨by simp [hc], ?_, ?_, by simp [hlen]⟩
      · simp only [List.nodup_append, hnd, List.nodup_cons, List.not_mem_nil,
          not_false_iff, List.nodup_nil, and_true, true_and, List.disjoint_singleton]
        exact hnotmem
      · intro q hq
        rcases List.mem_append.mp hq with hq | hq
        · exact hin q hq
        · simp only [List.mem_singleton] at hq
          subst hq
          assumption
  · exact ⟨hc, hnd, hin, hlen⟩

theorem procMulti_inv {b : Buffer} (ln : List String) :
    ∀ (ps : List Pt) (idx : Nat) (st : ClassState), StInv b st →
      StInv b (procMulti b ln idx ps st)
  | [], _, _, h => h
  | _ :: ps, idx, st, h =>
      procMulti_inv ln ps (idx + 1) _ (addPt_inv h _ _)

theorem procRecord_inv {b : Buffer} (dm ds : String) {st : ClassState}
    (h : StInv b st) (r : FeatureRecord) : StInv b (procRecord dm ds b st r) := by
  unfold procRecord
  cases r.geometry with
  | pt p => exact addPt_inv h _ _
  | multi ps => exact procMulti_inv _ ps 0 st h
  | other => exact h

theorem foldl_procRecord_inv {b : Buffer} (dm ds : String) :
    ∀ (layer : List FeatureRecord) (st : ClassState), StInv b st →
      StInv b (layer.foldl (procRecord dm ds b) st)
  | [], _, h => h
  | r :: layer, st, h =>
      foldl_procRecord_inv dm ds layer _ (procRecord_inv dm ds h r)

theorem classify_inv (dm ds : String) (b : Buffer) (layer : List FeatureRecord) :
    StInv b (classify dm ds b layer) :=
  foldl_procRecord_inv dm ds layer emptyClassState
    ⟨rfl, List.nodup_nil, fun p hp => absurd hp (List.not_mem_nil p), rfl⟩

theorem addPt_len {b : Buffer} {st : ClassState}
    (hlen : st.area.length = st.nombres.length) (p : Pt) (nm : String) :
    (addPt b st p nm).area.length = (addPt b st p nm).nombres.length := by
  unfold addPt
  split
  · split
    · exact hlen
    · simp [hlen]
  · exact hlen

theorem addPt_zip {b : Buffer} {st : ClassState}
    (hlen : st.area.length = st.nombres.length) (p : Pt) (nm : String) :
    ((addPt b st p nm).area.zip (addPt b st p nm).nombres = st.area.zip st.nombres) ∨
    ((addPt b st p nm).area.zip (addPt b st p nm).nombres
      = st.area.zip st.nombres ++ [(p, nm)]) := by
  unfold addPt
  split
  · split
    · exact Or.inl rfl
    · exact Or.inr (List.zip_append hlen)
  · exact Or.inl rfl

theorem addPt_nombres {b : Buffer} {st : ClassState} {p : Pt} {nm n : String}
    (hn : n ∈ (addPt b st p nm).nombres) : n ∈ st.nombres ∨ n = nm := by
  unfold addPt at hn
  split at hn
  · split at hn
    · exact Or.inl hn
    · simp only at hn
      rcases List.mem_append.mp hn with h | h
      · exact Or.inl h
      · simp only [List.mem_singleton] at h
        exact Or.inr h
  · exact Or.inl hn

theorem procMulti_zip {b : Buffer} (ln : List String) :
    ∀ (ps : List Pt) (idx : Nat) (st : ClassState),
      st.area.length = st.nombres.length →
      ∀ pr ∈ ((procMulti b ln idx ps st).area.zip (procMulti b ln idx ps st).nombres),
        pr ∈ st.area.zip st.nombres ∨
        ∃ j, ∃ hj : j < ps.length,
          pr.1 = ps.get ⟨j, hj⟩ ∧ pr.2 = nombreEnIdx ln (idx + j) := by
  intro ps
  induction ps with
  | nil => exact fun idx st _ pr hpr => Or.inl hpr
  | cons p ps ih =>
    intro idx st hlen pr hpr
    have hstep :
        procMulti b ln idx (p :: ps) st
          = procMulti b ln (idx + 1) ps (addPt b st p (nombreEnIdx ln idx)) := rfl
    rw [hstep] at hpr
    rcases ih (idx + 1) _ (addPt_len hlen p _) pr hpr with h | ⟨j, hj, h1, h2⟩
    · rcases addPt_zip hlen p (nombreEnIdx ln idx) with he | he
      · rw [he] at h
        exact Or.inl h
      · rw [he] at h
        rcases List.mem_append.mp h with h | h
        · exact Or.inl h
        · simp only [List.mem_singleton] at h
          subst h
          exact Or.inr ⟨0, Nat.succ_pos _, rfl, by rw [Nat.add_zero]⟩
    · refine Or.inr ⟨j + 1, Nat.succ_lt_succ hj, ?_, ?_⟩
      · simpa using h1
      · rw [show idx + (j + 1) = idx + 1 + j by omega]
        exact h2

theorem procMulti_nombres {b : Buffer} (ln : List String) :
    ∀ (ps : List Pt) (idx : Nat) (st : ClassState) (n : String),
      n ∈ (procMulti b ln idx ps st).nombres →
      n ∈ st.nombres ∨ ∃ j, n = nombreEnIdx ln j
  | [], _, _, _, hn => Or.inl hn
  | p :: ps, idx, st, n, hn => by
      rcases procMulti_nombres ln ps (idx + 1) _ n hn with h | h
      · rcases addPt_nombres h with h | h
        · exact Or.inl h
        · exact Or.inr ⟨idx, h⟩
      · exact Or.inr h

theorem nombreEnIdx_single (x : String) (j : Nat) : nombreEnIdx [x] j = x := by
  rcases j with _ | j <;> simp [nombreEnIdx]

theorem classify_none_nombres (dm ds : String) (hdm : listaNombres dm = [dm])
    (b : Buffer) (g : Geom) (n : String)
    (hn : n ∈ (classify dm ds b [{ geometry := g, nombres := none }]).nombres) :
    n = dm := by
  cases g with
  | multi ps =>
    have hn' : n ∈ (procMulti b (listaNombres dm) 0 ps emptyClassState).nombres := hn
    rcases procMulti_nombres _ ps 0 emptyClassState n hn' with h | ⟨j, h⟩
    · exact absurd h (List.not_mem_nil n)
    · rw [hdm, nombreEnIdx_single] at h
      exact h
  | pt p =>
    have hn' : n ∈ (addPt b emptyClassState p ((listaNombres dm).headD ds)).nombres := hn
    rcases addPt_nombres hn' with h | h
    · exact absurd h (List.not_mem_nil n)
    · rw [hdm] at h
      exact h
  | other => exact absurd hn (List.not_mem_nil n)

/-- C6: pairing of multi-point constituents with semicolon-delimited name
tokens.  (1) Every (point, name) pair the classifier collects from a
multi-point record is the constituent at some multi-point index `j`
paired with `nombreEnIdx (listaNombres s) j` — the `j`-th token of the
name field after splitting on ";" and stripping whitespace, or the first
token when `j` is beyond the token count.  (2,3) A record with no name
field at all always receives the layer's generic placeholder name. -/
theorem classify_nombres_pairing :
    (∀ (dm ds : String) (b : Buffer) (ps : List Pt) (s : String) (pr : Pt × String),
        pr ∈ ((classify dm ds b [{ geometry := Geom.multi ps, nombres := some s }]).area.zip
              (classify dm ds b [{ geometry := Geom.multi ps, nombres := some s }]).nombres) →
        ∃ j, ∃ hj : j < ps.length,
          pr.1 = ps.get ⟨j, hj⟩ ∧ pr.2 = nombreEnIdx (listaNombres s) j) ∧
    (∀ (b : Buffer) (g : Geom) (n : String),
        n ∈ (estaciones_area b [{ geometry := g, nombres := none }]).nombres →
        n = "Estación sin nombre") ∧
    (∀ (b : Buffer) (g : Geom) (n : String),
        n ∈ (colegios_area b [{ geometry := g, nombres := none }]).nombres →
        n = "Colegio sin nombre") := by
  refine ⟨?_, ?_, ?_⟩
  · intro dm ds b ps s pr hpr
    have hpr' :
        pr ∈ ((procMulti b (listaNombres s) 0 ps emptyClassState).area.zip
              (procMulti b (listaNombres s) 0 ps emptyClassState).nombres) := hpr
    rcases procMulti_zip _ ps 0 emptyClassState rfl pr hpr' with h | ⟨j, hj, h1, h2⟩
    · exact absurd h (List.not_mem_nil pr)
    · exact ⟨j, hj, h1, by rw [h2, Nat.zero_add]⟩
  · exact fun b g n hn =>
      classify_none_nombres "Estación sin nombre" "Estación" (by decide) b g n hn
  · exact fun b g n hn =>
      classify_none_nombres "Colegio sin nombre" "Colegio" (by decide) b g n hn

/-- C6 witness: in a concrete run — buffer of radius 10 at the origin, one
multi-point record with constituents (0,0) and (1,0) and name field
"A;B" — the collected pair ((1,0), "B") is the constituent at index 1
paired with token 1. -/
theorem classify_nombres_pairing_witness :
    ((⟨⟨1, 0⟩, "B"⟩ : Pt × String) ∈
      ((classify "X" "Y" ⟨0, 0, 10⟩
          [{ geometry := Geom.multi [⟨0, 0⟩, ⟨1, 0⟩], nombres := some "A;B" }]).area.zip
        (classify "X" "Y" ⟨0, 0, 10⟩
          [{ geometry := Geom.multi [⟨0, 0⟩, ⟨1, 0⟩], nombres := some "A;B" }]).nombres)) ∧
    (∃ j, ∃ hj : j < ([⟨0, 0⟩, ⟨1, 0⟩] : List Pt).length,
      (⟨⟨1, 0⟩, "B"⟩ : Pt × String).1 = ([⟨0, 0⟩, ⟨1, 0⟩] : List Pt).get ⟨j, hj⟩ ∧
      (⟨⟨1, 0⟩, "B"⟩ : Pt × String).2 = nombreEnIdx (listaNombres "A;B") j) :=
  ⟨by decide,
    classify_nombres_pairing.1 "X" "Y" ⟨0, 0, 10⟩ [⟨0, 0⟩, ⟨1, 0⟩] "A;B" _ (by decide)⟩

/-- C5: for every feature layer and buffer, the classified subset holds
each exact coordinate pair at most once — the coordinate list the loop
maintains is exactly the coordinates of the collected points and never
repeats a pair, across records and across the constituents of multi-point
clusters alike — and every collected point passes the boundary-exclusive
containment test against the buffer. -/
theorem classify_dedup_and_containment (dm ds : String) (b : Buffer)
    (layer : List FeatureRecord) :
    ((classify dm ds b layer).area.map ptCoord).Nodup ∧
    (∀ p ∈ (classify dm ds b layer).area, bufContainsPt b p = true) := by
  obtain ⟨hc, hnd, hin, _⟩ := classify_inv dm ds b layer
  exact ⟨hc ▸ hnd, hin⟩

/-- C2 counterexample: a block that merely intersects the buffer (one of
its points lies in the disk, another lies far outside, so its geometry is
not within the buffer interior) is nevertheless a member of
`manzanas_zona`, refuting the claimed "member iff contained in the
buffer's interior". -/
theorem manzanas_zona_not_interior_containment :
    manzanaStraddle ∈ manzanas_zona [manzanaStraddle] bufferUnit ∧
    geomWithinBufferInterior manzanaStraddle.geometry bufferUnit = false := by
  constructor
  · decide
  · decide

/-- C2 amended: a block belongs to the in-buffer block subset iff it is a
row of the block layer and its geometry *intersects* the buffer, i.e.
shares at least one covered point with the closed buffer disk — partial
overlap suffices; interior containment of the whole geometry is not
required. -/
theorem manzanas_zona_membership (manzanas : List Manzana) (b : Buffer) (m : Manzana) :
    m ∈ manzanas_zona manzanas b ↔
      m ∈ manzanas ∧ ∃ p ∈ m.geometry, bufMeetsPt b p = true := by
  simp only [manzanas_zona, List.mem_filter, geomIntersectsBuffer, List.any_eq_true]

/-- C1: the composite score starts at 0, adds 1 for each of the three
threshold conditions (stations ≥ 2, schools ≥ 2, blocks ≥ 10), always
lies in {0,1,2,3}, reaches 3 exactly when all three conditions hold, and
maps 3 to the well-served banner, 2 to the acceptable banner and 0 or 1
to the deficient banner; the three boundary scenarios of the spec
evaluate as claimed. -/
theorem score_composite_and_labels :
    (∀ e c m : Nat, score e c m ≤ 3) ∧
    (∀ e c m : Nat, score e c m = 3 ↔ (2 ≤ e ∧ 2 ≤ c ∧ 10 ≤ m)) ∧
    score 2 2 10 = 3 ∧ evaluacion (score 2 2 10) = "SECTOR BIEN DOTADO" ∧
    score 1 2 10 = 2 ∧ evaluacion (score 1 2 10) = "SECTOR ACEPTABLE" ∧
    score 0 0 5 = 0 ∧ evaluacion (score 0 0 5) = "SECTOR CON DÉFICIT" ∧
    evaluacion 1 = "SECTOR CON DÉFICIT" := by
  refine ⟨?_, ?_, ?_, ?_, ?_, ?_, ?_, ?_, ?_⟩
  · intro e c m
    simp only [score]
    split <;> split <;> split <;> omega
  · intro e c m
    simp only [score]
    split <;> split <;> split <;> omega
  all_goals rfl

theorem estLocStep_mem (ms : List Manzana) (acc : List Pt) (r : FeatureRecord) (p : Pt) :
    p ∈ estLocStep ms acc r ↔
      p ∈ acc ∨ ∃ ps, r.geometry = Geom.multi ps ∧ p ∈ ps ∧
        ∃ m ∈ ms, manzanaContainsPt m p = true := by
  unfold estLocStep
  cases hg : r.geometry with
  | multi ps =>
    simp only [List.mem_append, List.mem_filter, List.any_eq_true]
    constructor
    · rintro (h | ⟨hp, hc⟩)
      · exact Or.inl h
      · exact Or.inr ⟨ps, rfl, hp, hc⟩
    · rintro (h | ⟨ps', hps', hp, hc⟩)
      · exact Or.inl h
      · injection hps' with hps'
        subst hps'
        exact Or.inr ⟨hp, hc⟩
  | pt q =>
    constructor
    · exact Or.inl
    · rintro (h | ⟨ps', hps', _⟩)
      · exact h
      · exact absurd hps' (by simp)
  | other =>
    constructor
    · exact Or.inl
    · rintro (h | ⟨ps', hps', _⟩)
      · exact h
      · exact absurd hps' (by simp)

theorem foldl_estLocStep_mem (ms : List Manzana) :
    ∀ (layer : List FeatureRecord) (acc : List Pt) (p : Pt),
      p ∈ layer.foldl (estLocStep ms) acc ↔
        p ∈ acc ∨ ∃ r ∈ layer, ∃ ps, r.geometry = Geom.multi ps ∧ p ∈ ps ∧
          ∃ m ∈ ms, manzanaContainsPt m p = true := by
  intro layer
  induction layer with
  | nil => simp
  | cons r layer ih =>
    intro acc p
    rw [List.foldl_cons, ih, estLocStep_mem]
    simp only [List.exists_mem_cons_iff, or_assoc]

/-- C3 counterexample: a layer holding one single-`Point` record whose
point lies inside a block of the locality contributes nothing to the
locality-wide total (the locality loops iterate only multi-point rows),
whereas the claimed total — every constituent point of every record,
single points included — is 1. -/
theorem total_loc_misses_single_points :
    total_estaciones_loc [manzanaOrigin] singlePointLayer = 0 ∧
    claimTotalLoc [manzanaOrigin] singlePointLayer = 1 := by
  constructor
  · decide
  · decide

/-- C3 amended: the locality-wide point collection holds a point iff some
*multi-point* record has it as a constituent and at least one block of the
selected locality contains it; single-`Point` records are skipped by the
locality-total loops (they have no `isinstance(..., Point)` branch), so
they never reach the deduplicated denominator
`total_estaciones_loc`/`total_colegios_loc`. -/
theorem estaciones_localidad_membership (ms : List Manzana)
    (layer : List FeatureRecord) (p : Pt) :
    p ∈ estaciones_localidad ms layer ↔
      ∃ r ∈ layer, ∃ ps, r.geometry = Geom.multi ps ∧ p ∈ ps ∧
        ∃ m ∈ ms, manzanaContainsPt m p = true := by
  rw [estaciones_localidad, foldl_estLocStep_mem]
  simp

theorem filter_key_length_le_one {areas : List AreaRec}
    (h : (areas.map (fun a => a.idArea)).Nodup) (k : Nat) :
    (areas.filter (fun a => a.idArea == k)).length ≤ 1 := by
  induction areas with
  | nil => simp
  | cons a areas ih =>
    simp only [List.map_cons, List.nodup_cons] at h
    obtain ⟨hnot, hnd⟩ := h
    simp only [List.filter_cons]
    split
    · next hk =>
      have hnil : areas.filter (fun a' => a'.idArea == k) = [] := by
        refine List.filter_eq_nil_iff.mpr ?_
        intro a' ha'
        simp only [beq_iff_eq]
        intro hk'
        apply hnot
        rw [beq_iff_eq] at hk
        rw [hk, ← hk']
        exact List.mem_map_of_mem _ ha'
      simp [hnil]
    · exact ih hnd

theorem mergeRow_map_manzana {areas : List AreaRec} {m : Manzana}
    (h : (areas.filter (fun a => a.idArea == m.idArea)).length ≤ 1) :
    (mergeRow areas m).map (fun mp => mp.manzana) = [m] := by
  unfold mergeRow
  rcases hf : areas.filter (fun a => a.idArea == m.idArea) with _ | ⟨a, rest⟩
  · rw [hf]
    rfl
  · rw [hf] at h
    have hrest : rest = [] := by
      cases rest with
      | nil => rfl
      | cons _ _ => simp at h
    subst hrest
    rw [hf]
    rfl

theorem merge_left_map_manzana {areas : List AreaRec}
    (h : (areas.map (fun a => a.idArea)).Nodup) :
    ∀ blocks : List Manzana,
      (merge_left blocks areas).map (fun mp => mp.manzana) = blocks
  | [] => rfl
  | b :: bs => by
      unfold merge_left
      rw [List.flatMap_cons, List.map_append,
        mergeRow_map_manzana (filter_key_length_le_one h _)]
      have := merge_left_map_manzana h bs
      unfold merge_left at this
      rw [this]
      rfl

/-- C4 counterexample: with a land-use table holding two rows sharing the
key 7, the pandas left merge emits the single input block twice, so the
output row count (2) differs from the input row count (1), refuting the
claim for arbitrary area collections. -/
theorem manzanas_pot_dup_key_counterexample :
    (manzanas_pot [blockKey7] areasDupKey).length = 2 ∧
    ([blockKey7] : List Manzana).length = 1 := by
  constructor
  · decide
  · decide

/-- C4 amended: provided the land-use table has at most one row per area
identifier (no duplicate join keys — the shape of a dimension table), the
enrichment is total and exact: the output rows are exactly the input
blocks, in order, each appearing exactly once (in particular for the
empty area table), and any block matching no area row receives the
sentinel category "Sin clasificación". -/
theorem manzanas_pot_exactly_once (blocks : List Manzana) (areas : List AreaRec)
    (h : (areas.map (fun a => a.idArea)).Nodup) :
    ((manzanas_pot blocks areas).map (fun mp => mp.manzana) = blocks) ∧
    (∀ mp ∈ manzanas_pot blocks areas,
      (∀ a ∈ areas, a.idArea ≠ mp.manzana.idArea) → mp.usoPot = "Sin clasificación") := by
  constructor
  · unfold manzanas_pot
    split
    · induction blocks with
      | nil => rfl
      | cons b bs ih =>
        simp only [List.map_cons]
        exact congrArg (List.cons b) ih
    · exact merge_left_map_manzana h blocks
  · intro mp hmp hnomatch
    unfold manzanas_pot at hmp
    split at hmp
    · obtain ⟨m, _, rfl⟩ := List.mem_map.mp hmp
      rfl
    · obtain ⟨b, hb, hmp⟩ := List.mem_flatMap.mp hmp
      unfold mergeRow at hmp
      rcases hfil : areas.filter (fun a => a.idArea == b.idArea) with _ | ⟨a, rest⟩
      · rw [hfil] at hmp
        simp only [List.mem_singleton] at hmp
        subst hmp
        rfl
      · rw [hfil] at hmp
        have hmp' : mp ∈ (a :: rest).map (fun a => ({ manzana := b, usoPot := a.usoPot } : ManzanaPot)) := hmp
        obtain ⟨a', ha', rfl⟩ := List.mem_map.mp hmp'
        have ha'f : a' ∈ areas.filter (fun a => a.idArea == b.idArea) := by
          rw [hfil]
          exact ha'
        obtain ⟨hmem, hkey⟩ := List.mem_filter.mp ha'f
        rw [beq_iff_eq] at hkey
        exact absurd hkey (hnomatch a' hmem)

/-- C4 witness: the amended theorem applied to one block and the empty
area table — the key list of the empty table has no duplicates, and the
output is the block itself exactly once. -/
theorem manzanas_pot_exactly_once_witness :
    ((([] : List AreaRec).map (fun a => a.idArea)).Nodup) ∧
    ((manzanas_pot [blockKey7] []).map (fun mp => mp.manzana) = [blockKey7]) :=
  ⟨by decide, (manzanas_pot_exactly_once [blockKey7] [] (by decide)).1⟩

/-- C7 counterexample: the density the code reports is the rational value
computed with the hard-coded literal `3.14159`, which is *not* equal to
the claimed `count / (π × (radius/1000)²)` — at count = 4 stations and
radius = 600 m the code's value is the rational 10000000/2827431, while
the π-formula value is irrational (equality would make π rational). -/
theorem densidad_not_pi_formula :
    ((densidad 4 600 : ℚ) : ℝ) ≠ (4 : ℝ) / (Real.pi * ((600 : ℝ) / 1000) ^ 2) := by
  intro h
  have hq : (densidad 4 600 : ℚ) = 10000000 / 2827431 := by norm_num [densidad]
  rw [hq] at h
  push_cast at h
  have hne : Real.pi ≠ 0 := ne_of_gt Real.pi_pos
  have hpi : Real.pi = ((314159 / 100000 : ℚ) : ℝ) := by
    push_cast
    field_simp at h
    linarith
  exact irrational_pi ⟨314159 / 100000, hpi.symm⟩

/-- C7 amended: the reported density equals
`count / (3.14159 × (radius_meters/1000)²)` — the code's hard-coded
approximation of π — features per square kilometre of the *nominal*
buffer area derived from the requested radius: multiplying the density
back by that nominal area returns the count exactly.  For count = 4
stations and radius = 600 m the value displayed to two decimal places is
still 3.54, as the claim's numeric check states. -/
theorem densidad_formula_and_display :
    (∀ count radio : Nat, radio ≠ 0 →
      densidad count radio * ((314159 / 100000 : ℚ) * ((radio : ℚ) / 1000) ^ 2)
        = count) ∧
    roundTo2 (densidad 4 600) = 354 := by
  constructor
  · intro count radio h
    have hr : ((radio : ℚ) / 1000) ^ 2 ≠ 0 :=
      pow_ne_zero _ (div_ne_zero (Nat.cast_ne_zero.mpr h) (by norm_num))
    field_simp [densidad]
  · unfold roundTo2
    rw [Int.floor_eq_iff]
    constructor <;> norm_num [densidad]

/-- C7 witness: the amended formula instantiated at the claim's own
check, count = 4 and radius = 600. -/
theorem densidad_formula_and_display_witness :
    ((600 : Nat) ≠ 0) ∧
    densidad 4 600 * ((314159 / 100000 : ℚ) * (((600 : Nat) : ℚ) / 1000) ^ 2) = 4 :=
  ⟨by decide, densidad_formula_and_display.1 4 600 (by decide)⟩

/-- C8: a zero locality-wide denominator short-circuits the conditional
expression to 0 before the division — and before the (undefined) buffer
count name — is ever evaluated, so the percent figure is a defined 0 and
no division by zero occurs, whatever the count operand is; and the
density metric is simply not computed over an empty classified subset
(the `if estaciones_area:` guard), rather than failing. -/
theorem porcentaje_zero_denominator_safe :
    (∀ count : Option Nat, porcentajeExpr count 0 = some 0) ∧
    (∀ radio : Nat, metricDensidad [] radio = none) ∧
    (∀ (c total : Nat), 0 < total →
      porcentajeExpr (some c) total = some ((c : ℚ) / (total : ℚ) * 100)) := by
  refine ⟨fun count => rfl, fun radio => rfl, fun c total htot => ?_⟩
  have hne : ((total : ℚ)) ≠ 0 := Nat.cast_ne_zero.mpr (Nat.pos_iff_ne_zero.mp htot)
  simp [porcentajeExpr, pyDiv, htot, hne]

/-- C8 witness: the guarded positive-denominator branch at count 1 of a
total of 2 evaluates to 50%. -/
theorem porcentaje_zero_denominator_safe_witness :
    (0 < 2) ∧ porcentajeExpr (some 1) 2 = some ((1 : ℚ) / (2 : ℚ) * 100) :=
  ⟨by decide, porcentaje_zero_denominator_safe.2.2 1 2 (by decide)⟩

theorem le_foldr_max (xs : List Nat) (x : Nat) (hx : x ∈ xs) : x ≤ xs.foldr max 0 := by
  induction xs with
  | nil => cases hx
  | cons y ys ih =>
    rcases List.mem_cons.mp hx with rfl | hx'
    · exact le_max_left _ _
    · exact le_trans (ih hx') (le_max_right _ _)

theorem foldr_max_le (xs : List Nat) (B : Nat) (h : ∀ x ∈ xs, x ≤ B) :
    xs.foldr max 0 ≤ B := by
  induction xs with
  | nil => exact Nat.zero_le B
  | cons y ys ih =>
    exact max_le (h y (List.mem_cons_self _ _)) (ih fun x hx => h x (List.mem_cons_of_mem _ hx))

theorem count_le_maxCount {l : List Nat} {w : Nat} (hw : w ∈ l) :
    l.count w ≤ maxCount l :=
  le_foldr_max _ _ (List.mem_map_of_mem _ hw)

theorem maxCount_le {l : List Nat} {B : Nat} (h : ∀ w ∈ l, l.count w ≤ B) :
    maxCount l ≤ B := by
  refine foldr_max_le _ _ (fun x hx => ?_)
  obtain ⟨w, hw, rfl⟩ := List.mem_map.mp hx
  exact h w hw

theorem foldl_min_mem : ∀ (xs : List Nat) (x : Nat), xs.foldl min x ∈ x :: xs := by
  intro xs
  induction xs with
  | nil => intro x; exact List.mem_cons_self x []
  | cons y ys ih =>
    intro x
    have hstep : (y :: ys).foldl min x = ys.foldl min (min x y) := rfl
    rw [hstep]
    have h := ih (min x y)
    rcases List.mem_cons.mp h with h | h
    · rw [h]
      rcases min_choice x y with hm | hm
      · rw [hm]; exact List.mem_cons_self _ _
      · rw [hm]; exact List.mem_cons_of_mem _ (List.mem_cons_self _ _)
    · exact List.mem_cons_of_mem _ (List.mem_cons_of_mem _ h)

theorem listMin_mem {l : List Nat} {v : Nat} (h : listMin l = some v) : v ∈ l := by
  cases l with
  | nil => cases h
  | cons x xs =>
    simp only [listMin, Option.some.injEq] at h
    rw [← h]
    exact foldl_min_mem xs x

theorem foldl_min_all_eq : ∀ (xs : List Nat) (x : Nat), (∀ w ∈ xs, w = x) →
    xs.foldl min x = x := by
  intro xs
  induction xs with
  | nil => intro x _; rfl
  | cons y ys ih =>
    intro x hall
    have hy : y = x := hall y (List.mem_cons_self _ _)
    have hstep : (y :: ys).foldl min x = ys.foldl min (min x y) := rfl
    rw [hstep, hy, min_self]
    exact ih x (fun w hw => hall w (List.mem_cons_of_mem _ hw))

theorem listMin_all_eq {l : List Nat} {v : Nat} (hne : l ≠ [])
    (hall : ∀ w ∈ l, w = v) : listMin l = some v := by
  cases l with
  | nil => exact absurd rfl hne
  | cons x xs =>
    have hx : x = v := hall x (List.mem_cons_self _ _)
    simp only [listMin, Option.some.injEq]
    rw [foldl_min_all_eq xs x (fun w hw => (hall w (List.mem_cons_of_mem _ hw)).trans hx.symm)]
    exact hx

theorem predominantEstrato_maximal {l : List Nat} {v : Nat}
    (h : predominantEstrato l = some v) :
    v ∈ l ∧ ∀ w ∈ l, l.count w ≤ l.count v := by
  unfold predominantEstrato at h
  split at h
  · cases h
  · have hv := listMin_mem h
    obtain ⟨hvl, hcount⟩ := List.mem_filter.mp hv
    rw [beq_iff_eq] at hcount
    refine ⟨hvl, fun w hw => ?_⟩
    rw [hcount]
    exact count_le_maxCount hw

theorem predominantEstrato_strict {l : List Nat} {v : Nat} (hv : v ∈ l)
    (hstrict : ∀ w ∈ l, w ≠ v → l.count w < l.count v) :
    predominantEstrato l = some v := by
  have hmax : l.count v = maxCount l := by
    refine le_antisymm (count_le_maxCount hv) (maxCount_le (fun w hw => ?_))
    by_cases hwv : w = v
    · rw [hwv]
    · exact le_of_lt (hstrict w hw hwv)
  have hne : l.isEmpty = false := by
    cases l with
    | nil => cases hv
    | cons _ _ => rfl
  unfold predominantEstrato
  rw [hne]
  simp only [Bool.false_eq_true, if_false]
  refine listMin_all_eq ?_ ?_
  · exact List.ne_nil_of_mem (List.mem_filter.mpr ⟨hv, by rw [beq_iff_eq]; exact hmax⟩)
  · intro w hw
    obtain ⟨hwl, hwc⟩ := List.mem_filter.mp hw
    rw [beq_iff_eq] at hwc
    by_contra hne'
    have hlt := hstrict w hwl hne'
    rw [hwc, ← hmax] at hlt
    exact lt_irrefl _ hlt

theorem mem_foldl_unique : ∀ (xs acc : List String) (y : String),
    (y ∈ xs.foldl (fun acc x => if x ∈ acc then acc else acc ++ [x]) acc ↔
      y ∈ acc ∨ y ∈ xs) := by
  intro xs
  induction xs with
  | nil => simp
  | cons x xs ih =>
    intro acc y
    rw [List.foldl_cons, ih]
    by_cases hx : x ∈ acc
    · rw [if_pos hx]
      constructor
      · rintro (h | h)
        · exact Or.inl h
        · exact Or.inr (List.mem_cons_of_mem _ h)
      · rintro (h | h)
        · exact Or.inl h
        · rcases List.mem_cons.mp h with rfl | h
          · exact Or.inl hx
          · exact Or.inr h
    · rw [if_neg hx]
      constructor
      · rintro (h | h)
        · rcases List.mem_append.mp h with h | h
          · exact Or.inl h
          · simp only [List.mem_singleton] at h
            exact Or.inr (h ▸ List.mem_cons_self _ _)
        · exact Or.inr (List.mem_cons_of_mem _ h)
      · rintro (h | h)
        · exact Or.inl (List.mem_append.mpr (Or.inl h))
        · rcases List.mem_cons.mp h with rfl | h
          · exact Or.inl (List.mem_append.mpr (Or.inr (List.mem_singleton.mpr rfl)))
          · exact Or.inr h

theorem mem_uniqueInOrder (l : List String) (y : String) :
    y ∈ uniqueInOrder l ↔ y ∈ l := by
  rw [uniqueInOrder, mem_foldl_unique]
  simp

theorem vcBest_mem (l : List String) :
    ∀ (xs : List String) (b : String), vcBest l b xs ∈ b :: xs := by
  intro xs
  induction xs with
  | nil => intro b; exact List.mem_cons_self b []
  | cons y ys ih =>
    intro b
    have hstep : vcBest l b (y :: ys)
        = vcBest l (if l.count b < l.count y then y else b) ys := rfl
    rw [hstep]
    have h := ih (if l.count b < l.count y then y else b)
    rcases List.mem_cons.mp h with h | h
    · rw [h]
      split
      · exact List.mem_cons_of_mem _ (List.mem_cons_self _ _)
      · exact List.mem_cons_self _ _
    · exact List.mem_cons_of_mem _ (List.mem_cons_of_mem _ h)

theorem vcBest_count_ge (l : List String) :
    ∀ (xs : List String) (b : String), l.count b ≤ l.count (vcBest l b xs) := by
  intro xs
  induction xs with
  | nil => intro b; exact le_refl _
  | cons y ys ih =>
    intro b
    have hstep : vcBest l b (y :: ys)
        = vcBest l (if l.count b < l.count y then y else b) ys := rfl
    rw [hstep]
    refine le_trans ?_ (ih _)
    split
    · next hlt => exact le_of_lt hlt
    · exact le_refl _

theorem vcBest_count_ge_elem (l : List String) :
    ∀ (xs : List String) (b x : String), x ∈ xs →
      l.count x ≤ l.count (vcBest l b xs) := by
  intro xs
  induction xs with
  | nil => intro b x hx; cases hx
  | cons y ys ih =>
    intro b x hx
    have hstep : vcBest l b (y :: ys)
        = vcBest l (if l.count b < l.count y then y else b) ys := rfl
    rw [hstep]
    rcases List.mem_cons.mp hx with rfl | hx'
    · refine le_trans ?_ (vcBest_count_ge l ys _)
      split
      · exact le_refl _
      · next hnlt => exact le_of_not_lt hnlt
    · exact ih _ x hx'

theorem vcBest_stay (l : List String) (v : String)
    (hstrict : ∀ w ∈ l, w ≠ v → l.count w < l.count v) :
    ∀ (xs : List String), (∀ x ∈ xs, x ∈ l) → vcBest l v xs = v := by
  intro xs
  induction xs with
  | nil => intro _; rfl
  | cons y ys ih =>
    intro hsub
    have hstep : vcBest l v (y :: ys)
        = vcBest l (if l.count v < l.count y then y else v) ys := rfl
    rw [hstep]
    have hbest : (if l.count v < l.count y then y else v) = v := by
      split
      · next hlt =>
        by_cases hyv : y = v
        · exact hyv
        · exact absurd hlt
            (not_lt_of_ge (le_of_lt (hstrict y (hsub y (List.mem_cons_self _ _)) hyv)))
      · rfl
    rw [hbest]
    exact ih (fun x hx => hsub x (List.mem_cons_of_mem _ hx))

theorem vcBest_reach (l : List String) (v : String)
    (hstrict : ∀ w ∈ l, w ≠ v → l.count w < l.count v) :
    ∀ (xs : List String) (b : String), b ∈ l → (∀ x ∈ xs, x ∈ l) → v ∈ xs →
      vcBest l b xs = v := by
  intro xs
  induction xs with
  | nil => intro b _ _ hv; cases hv
  | cons y ys ih =>
    intro b hb hsub hvmem
    have hstep : vcBest l b (y :: ys)
        = vcBest l (if l.count b < l.count y then y else b) ys := rfl
    rw [hstep]
    by_cases hyv : y = v
    · subst hyv
      by_cases hby : b = y
      · subst hby
        have hbb : (if l.count b < l.count b then b else b) = b := by
          split <;> rfl
        rw [hbb]
        exact vcBest_stay l b hstrict ys (fun x hx => hsub x (List.mem_cons_of_mem _ hx))
      · have hlt := hstrict b hb hby
        rw [if_pos hlt]
        exact vcBest_stay l y hstrict ys (fun x hx => hsub x (List.mem_cons_of_mem _ hx))
    · have hvmem' : v ∈ ys := by
        rcases List.mem_cons.mp hvmem with h | h
        · exact absurd h.symm hyv
        · exact h
      have hb' : (if l.count b < l.count y then y else b) ∈ l := by
        split
        · exact hsub y (List.mem_cons_self _ _)
        · exact hb
      exact ih _ hb' (fun x hx => hsub x (List.mem_cons_of_mem _ hx)) hvmem'

theorem vcFirst_maximal {l : List String} {v : String} (h : vcFirst l = some v) :
    v ∈ l ∧ ∀ w ∈ l, l.count w ≤ l.count v := by
  unfold vcFirst at h
  rcases hu : uniqueInOrder l with _ | ⟨u, us⟩
  · rw [hu] at h; cases h
  · rw [hu] at h
    simp only [Option.some.injEq] at h
    subst h
    constructor
    · refine (mem_uniqueInOrder l _).mp ?_
      rw [hu]
      exact vcBest_mem l us u
    · intro w hw
      have hw' : w ∈ uniqueInOrder l := (mem_uniqueInOrder l w).mpr hw
      rw [hu] at hw'
      rcases List.mem_cons.mp hw' with rfl | hw''
      · exact vcBest_count_ge l us w
      · exact vcBest_count_ge_elem l us u w hw''

theorem vcFirst_strict {l : List String} {v : String} (hv : v ∈ l)
    (hstrict : ∀ w ∈ l, w ≠ v → l.count w < l.count v) : vcFirst l = some v := by
  unfold vcFirst
  rcases hu : uniqueInOrder l with _ | ⟨u, us⟩
  · have hvu : v ∈ uniqueInOrder l := (mem_uniqueInOrder l v).mpr hv
    rw [hu] at hvu
    cases hvu
  · have hsub : ∀ x ∈ us, x ∈ l := fun x hx =>
      (mem_uniqueInOrder l x).mp (by rw [hu]; exact List.mem_cons_of_mem _ hx)
    have humem : u ∈ l :=
      (mem_uniqueInOrder l u).mp (by rw [hu]; exact List.mem_cons_self _ _)
    have hvu : v ∈ uniqueInOrder l := (mem_uniqueInOrder l v).mpr hv
    rw [hu] at hvu
    show some (vcBest l u us) = some v
    congr 1
    rcases List.mem_cons.mp hvu with rfl | hvus
    · exact vcBest_stay l v hstrict us hsub
    · exact vcBest_reach l v hstrict us u humem hsub hvus

/-- C9 counterexample: with two in-buffer blocks of strata 2 and 3 (a
tie, one block each), the report still names stratum 2 as predominant —
`mode()[0]` picks the smallest modal value — although no group has a
strictly highest block count, refuting the claim that the reported
predominant group is the one with the strictly highest count. -/
theorem predominant_tie_counterexample :
    predominantEstrato [2, 3] = some 2 ∧
    ¬ (∀ w ∈ ([2, 3] : List Nat), w ≠ 2 →
        ([2, 3] : List Nat).count w < ([2, 3] : List Nat).count 2) := by
  constructor
  · decide
  · decide

/-- C9 amended: on an empty in-buffer block set both reports are 'N/A';
whenever a predominant stratum (resp. land-use category) is reported it
is a group of *maximal* block count; and whenever some group has the
strictly highest count, that group is the one reported.  On ties no
strictly-highest group exists and the code still reports a maximal one
(smallest stratum value for `mode()[0]`, earliest first appearance for
`value_counts().index[0]`). -/
theorem predominant_amended :
    (predominantEstrato [] = none ∧ vcFirst [] = none) ∧
    (∀ (l : List Nat) (v : Nat), predominantEstrato l = some v →
      v ∈ l ∧ ∀ w ∈ l, l.count w ≤ l.count v) ∧
    (∀ (l : List Nat) (v : Nat), v ∈ l →
      (∀ w ∈ l, w ≠ v → l.count w < l.count v) → predominantEstrato l = some v) ∧
    (∀ (l : List String) (v : String), vcFirst l = some v →
      v ∈ l ∧ ∀ w ∈ l, l.count w ≤ l.count v) ∧
    (∀ (l : List String) (v : String), v ∈ l →
      (∀ w ∈ l, w ≠ v → l.count w < l.count v) → vcFirst l = some v) :=
  ⟨⟨rfl, rfl⟩,
    fun _ _ h => predominantEstrato_maximal h,
    fun _ _ hv hs => predominantEstrato_strict hv hs,
    fun _ _ h => vcFirst_maximal h,
    fun _ _ hv hs => vcFirst_strict hv hs⟩

/-- C9 witness: among in-buffer strata [1, 1, 2] the stratum 1 has the
strictly highest count and is reported as predominant. -/
theorem predominant_amended_witness :
    ((1 : Nat) ∈ ([1, 1, 2] : List Nat) ∧
      (∀ w ∈ ([1, 1, 2] : List Nat), w ≠ 1 →
        ([1, 1, 2] : List Nat).count w < ([1, 1, 2] : List Nat).count 1)) ∧
    predominantEstrato [1, 1, 2] = some 1 :=
  ⟨⟨by decide, by decide⟩,
    predominant_amended.2.2.1 [1, 1, 2] 1 (by decide) (by decide)⟩

theorem lookupVar_none {env : List (String × Nat)} {L : List String}
    (hdom : ∀ p ∈ env, p.1 ∈ L) {n : String} (hn : n ∉ L) :
    lookupVar env n = none := by
  unfold lookupVar
  rw [List.find?_eq_none.mpr]
  · rfl
  · intro p hp
    simp only [beq_iff_eq]
    intro hpn
    exact hn (hpn ▸ hdom p hp)

/-- C10: the report, scoring and CSV-export step reads the names
`estaciones_buffer`, `colegios_buffer`, `manzanas_buffer` and the session
key `buffer_size`, none of which the program ever assigns (the computed
values live under `estaciones_area`, `colegios_area`, `manzanas_zona` and
`radio_analisis`): for every variable environment whose domain lies
within the names the program binds, and every session-state environment
whose keys lie within the session keys the program assigns, the report
step aborts on an undefined name and never produces its record. -/
theorem informe_reads_undefined_names (env senv : List (String × Nat))
    (henv : ∀ p ∈ env, p.1 ∈ assignedNames)
    (hsenv : ∀ p ∈ senv, p.1 ∈ sessionAssignedKeys) :
    informeStep env senv = none := by
  have h1 : lookupVar env "estaciones_buffer" = none :=
    lookupVar_none henv (by decide)
  unfold informeStep
  rw [h1]
  rfl

/-- C10 witness: the empty environments (domains trivially within the
assigned names) make the report step abort. -/
theorem informe_reads_undefined_names_witness :
    ((∀ p ∈ ([] : List (String × Nat)), p.1 ∈ assignedNames) ∧
      (∀ p ∈ ([] : List (String × Nat)), p.1 ∈ sessionAssignedKeys)) ∧
    informeStep [] [] = none :=
  ⟨⟨by decide, by decide⟩,
    informe_reads_undefined_names [] [] (by decide) (by decide)⟩

end Concurso
